import Mathlib

/-!
Shallow embedding of the `mvcc` package (Jekaa/go-mvcc-map): a transactional
in-memory key/value container with snapshot isolation and optimistic
write-write conflict detection.

Go maps `map[K]V` are modelled as association lists `List (K × V)` with a
`lookup` that returns the first binding and an `minsert` that replaces the
binding in place (Go map assignment); Go `uint64` counters are modelled as
`Nat` (they never wrap in any realistic execution and no arithmetic other
than increment and comparison is performed on them), and the `int64`
refcount as `Int`.  Atomic cells are modelled as plain fields: every
operation of the source is embedded as a pure state-passing function, which
matches the source's own ownership rule (a transaction is owned by a single
goroutine, and the store's commit path is serialized by `mu`).
-/

namespace Mvcc

/-- `versionedValue` (version.go): a value together with the id of the
transaction that wrote it. -/
structure versionedValue (V : Type) where
  value : V
  writerTxID : Nat
deriving DecidableEq, Repr

/-- First-binding lookup in an association list, the model of Go map read
`v, ok := m[k]`. -/
def lookup {K A : Type} [DecidableEq K] : List (K × A) → K → Option A
  | [], _ => none
  | (k', a) :: rest, k => if k = k' then some a else lookup rest k

/-- In-place replacing insert, the model of Go map write `m[k] = a`. -/
def minsert {K A : Type} [DecidableEq K] : List (K × A) → K → A → List (K × A)
  | [], k, a => [(k, a)]
  | (k', a') :: rest, k, a =>
      if k = k' then (k, a) :: rest else (k', a') :: minsert rest k a

/-- `version` (version.go): an immutable snapshot of the data tagged with a
monotonically increasing id and a refcount.  The `atomic.Int64` refcount is
modelled as a plain `Int` field. -/
structure version (K V : Type) where
  id : Nat
  data : List (K × versionedValue V)
  refCount : Int
deriving DecidableEq, Repr

/-- `version.clone` (version.go): `maps.Clone` returns a fresh map with
identical entries; under value semantics this is the data itself. -/
def version.clone {K V : Type} (v : version K V) : List (K × versionedValue V) :=
  v.data

/-- `newVersion` (version.go): refcount starts at zero. -/
def newVersion {K V : Type} (id : Nat) (data : List (K × versionedValue V)) :
    version K V :=
  ⟨id, data, 0⟩

/-- `txState` (tx.go): active → committed | rolledBack. -/
inductive txState where
  | txActive
  | txCommitted
  | txRolledBack
deriving DecidableEq, Repr

export txState (txActive txCommitted txRolledBack)

/-- The sentinel errors of tx.go.  `ErrTxCanceled` wraps the cancellation
cause (the source wraps the context's error with `fmt.Errorf`). -/
inductive MVCCError where
  | ErrConflict
  | ErrTxDone
  | ErrDeadlock
  | ErrTxCanceled (cause : String)
deriving DecidableEq, Repr

/-- `txMeta` (tx.go): minimal per-transaction metadata held by the store for
GC and deadlock detection.  Note it stores no snapshot id and no
cancellation handle; its mutex is not modelled. -/
structure txMeta where
  id : Nat
  waitFor : Nat
deriving DecidableEq, Repr

/-- `Tx` (tx.go).  `tx.ctx` is modelled by `ctxErr`: `none` while the
context is live, `some cause` once it has been cancelled (`ctx.Err() ≠ nil`).
The `db` back-reference is not stored: the store is passed explicitly to the
operations that use it. -/
structure Tx (K V : Type) where
  id : Nat
  snapshot : version K V
  writes : List (K × versionedValue V)
  readSet : List K
  state : txState
  ctxErr : Option String
deriving DecidableEq, Repr

/-- `MVCCMap` (map.go).  Mutexes and the background goroutine handles are
not part of the sequential state. -/
structure MVCCMap (K V : Type) where
  current : version K V
  nextTxID : Nat
  nextVersionID : Nat
  activeTxs : List (Nat × txMeta)
  versions : List (version K V)
deriving DecidableEq, Repr

/-- Side effects of a transaction's terminal cleanup, recorded explicitly:
whether `tx.cancel()` was invoked, whether `unregisterTx` ran, and how many
`snapshot.refCount.Add(-1)` operations were executed. -/
structure Effects where
  cancelFired : Bool
  unregistered : Bool
  snapRefDec : Nat
deriving DecidableEq, Repr

def noEffects : Effects := ⟨false, false, 0⟩

/-- `NewMVCCMap` (map.go, lines 58-74): one initial version with id 0 and an
empty map, stored both as `current` and in `versions`. -/
def NewMVCCMap (K V : Type) : MVCCMap K V :=
  let v0 : version K V := newVersion 0 []
  ⟨v0, 0, 0, [], [v0]⟩

/-- `MVCCMap.VersionCount` (map.go, lines 177-181). -/
def VersionCount {K V : Type} (m : MVCCMap K V) : Nat :=
  m.versions.length

/-- Bump the refcount of the version with id `vid` wherever the shared cell
is reachable from the store (`current` and the `versions` list hold the same
version object in the source; version ids are unique, so updating every copy
with that id models the single shared `atomic.Int64`). -/
def bumpRef {K V : Type} (m : MVCCMap K V) (vid : Nat) (d : Int) : MVCCMap K V :=
  { m with
    current :=
      if m.current.id = vid then
        { m.current with refCount := m.current.refCount + d }
      else m.current,
    versions := m.versions.map fun v =>
      if v.id = vid then { v with refCount := v.refCount + d } else v }

/-- `MVCCMap.BeginTx` (map.go, lines 86-111).  `ctxErr` is the state of the
caller's context, inherited by the transaction's derived child context. -/
def BeginTx {K V : Type} (m : MVCCMap K V) (ctxErr : Option String) :
    Tx K V × MVCCMap K V :=
  let txID := m.nextTxID + 1
  let snap := m.current
  let tx : Tx K V :=
    ⟨txID, { snap with refCount := snap.refCount + 1 }, [], [], txActive, ctxErr⟩
  let m' := bumpRef { m with nextTxID := txID } snap.id 1
  (tx, { m' with activeTxs := minsert m'.activeTxs txID ⟨txID, 0⟩ })

/-- The conflict test of the commit critical section (map.go, lines 129-141)
for one key of the write set. -/
def conflictAt {K V : Type} [DecidableEq K]
    (current snapshot : version K V) (key : K) : Bool :=
  match lookup current.data key with
  | none => false
  | some vv =>
      decide (vv.writerTxID ≠ 0) && decide (snapshot.id < current.id) &&
        (match lookup snapshot.data key with
         | none => true
         | some snapVV => decide (snapVV.writerTxID ≠ vv.writerTxID))

/-- The whole conflict loop of map.go lines 129-141: `ErrConflict` is
returned iff some key of the write set passes the test. -/
def hasConflict {K V : Type} [DecidableEq K]
    (current snapshot : version K V) (writes : List (K × versionedValue V)) :
    Bool :=
  writes.any fun p => conflictAt current snapshot p.1

/-- Modelled from the spec (§4.5 step 2, quoted by the claim): "A conflict
is signalled iff `cur_entry` exists and its `writer_tx_id` differs from
`snap_entry`'s `writer_tx_id` (including the case where `snap_entry` does
not exist but `cur_entry` does). A missing `cur_entry` is never a
conflict."  This is the predicate the claim asserts, to be compared with
the source's `conflictAt`. -/
def specConflictAt {K V : Type} [DecidableEq K]
    (current snapshot : version K V) (key : K) : Bool :=
  match lookup current.data key with
  | none => false
  | some vv =>
      match lookup snapshot.data key with
      | none => true
      | some snapVV => decide (snapVV.writerTxID ≠ vv.writerTxID)

/-- The overlay loop of map.go lines 144-147: clone, then
`newData[k] = vv` for each binding of the write buffer. -/
def overlay {K V : Type} [DecidableEq K]
    (data writes : List (K × versionedValue V)) :
    List (K × versionedValue V) :=
  writes.foldl (fun acc p => minsert acc p.1 p.2) data

/-- `MVCCMap.commit` (map.go, lines 120-167): under the commit mutex, check
conflicts; on conflict return `ErrConflict` leaving the store untouched;
otherwise clone-and-overlay, allocate the next version id, publish the new
version as `current` and append it to `versions`. -/
def commit {K V : Type} [DecidableEq K] (m : MVCCMap K V) (tx : Tx K V) :
    Option MVCCError × MVCCMap K V :=
  let current := m.current
  if hasConflict current tx.snapshot tx.writes then
    (some .ErrConflict, m)
  else
    let newData := overlay current.clone tx.writes
    let newVID := m.nextVersionID + 1
    let newVer := newVersion newVID newData
    (none,
      { m with
        current := newVer
        nextVersionID := newVID
        versions := m.versions ++ [newVer] })

/-- `MVCCMap.unregisterTx` (map.go, lines 169-173). -/
def unregisterTx {K V : Type} (m : MVCCMap K V) (txID : Nat) : MVCCMap K V :=
  { m with activeTxs := m.activeTxs.filter fun p => p.1 != txID }

/-- `Tx.checkActive` (tx.go, lines 128-133). -/
def checkActive {K V : Type} (tx : Tx K V) : Option MVCCError :=
  if tx.state ≠ txActive then some .ErrTxDone else none

def insertKey {K : Type} [DecidableEq K] (s : List K) (k : K) : List K :=
  if k ∈ s then s else k :: s

/-- `Tx.Get` (tx.go, lines 52-73): returns absent when the transaction is
not active (Go returns the zero value and `false`, with no error channel);
otherwise the write buffer first, then the snapshot, recording the key in
the read set on a hit. -/
def Get {K V : Type} [DecidableEq K] (tx : Tx K V) (key : K) :
    Option V × Tx K V :=
  match checkActive tx with
  | some _ => (none, tx)
  | none =>
    match lookup tx.writes key with
    | some vv => (some vv.value, { tx with readSet := insertKey tx.readSet key })
    | none =>
      match lookup tx.snapshot.data key with
      | some vv =>
          (some vv.value, { tx with readSet := insertKey tx.readSet key })
      | none => (none, tx)

/-- The deferred terminal cleanup shared by Commit and Rollback (tx.go,
lines 101-105 and 123-125): fire `tx.cancel()` (after which the context
reports a cause), `unregisterTx`, and `snapshot.refCount.Add(-1)` — the
decrement acts on the shared cell, i.e. on every store copy with the
snapshot's id. -/
def finishTx {K V : Type} (tx : Tx K V) (m : MVCCMap K V) :
    Tx K V × MVCCMap K V :=
  ({ tx with ctxErr := some (tx.ctxErr.getD "context canceled") },
   bumpRef (unregisterTx m tx.id) tx.snapshot.id (-1))

/-- `Tx.Rollback` (tx.go, lines 119-126): CAS Active → RolledBack; a failed
CAS is a no-op; on success run the terminal cleanup. -/
def Rollback {K V : Type} (tx : Tx K V) (m : MVCCMap K V) :
    Tx K V × MVCCMap K V × Effects :=
  if tx.state ≠ txActive then (tx, m, noEffects)
  else
    let f := finishTx { tx with state := txRolledBack } m
    (f.1, f.2, ⟨true, true, 1⟩)

/-- `Tx.Put` (tx.go, lines 77-91): `ErrTxDone` when not active; if the
context has been cancelled, roll back and return `ErrTxCanceled` wrapping
the cause; otherwise buffer the write stamped with the transaction's id. -/
def Put {K V : Type} [DecidableEq K] (tx : Tx K V) (m : MVCCMap K V)
    (key : K) (value : V) :
    Option MVCCError × Tx K V × MVCCMap K V × Effects :=
  match checkActive tx with
  | some e => (some e, tx, m, noEffects)
  | none =>
    match tx.ctxErr with
    | some cause =>
        let r := Rollback tx m
        (some (.ErrTxCanceled cause), r.1, r.2.1, r.2.2)
    | none =>
        (none, { tx with writes := minsert tx.writes key ⟨value, tx.id⟩ },
         m, noEffects)

/-- `Tx.Commit` (tx.go, lines 96-115): CAS Active → Committed first,
`ErrTxDone` on failure; on success the deferred cleanup runs on every exit
path; if the context was cancelled before the critical section, revert the
state to RolledBack and return `ErrTxCanceled` wrapping the cause;
otherwise delegate to the store's `commit`. -/
def Commit {K V : Type} [DecidableEq K] (tx : Tx K V) (m : MVCCMap K V) :
    Option MVCCError × Tx K V × MVCCMap K V × Effects :=
  if tx.state ≠ txActive then (some .ErrTxDone, tx, m, noEffects)
  else
    let tx1 := { tx with state := txCommitted }
    match tx1.ctxErr with
    | some cause =>
        let f := finishTx { tx1 with state := txRolledBack } m
        (some (.ErrTxCanceled cause), f.1, f.2, ⟨true, true, 1⟩)
    | none =>
        let r := commit m tx1
        let f := finishTx tx1 r.2
        (r.1, f.1, f.2, ⟨true, true, 1⟩)

/-- `MVCCMap.currentVersionID` (gc.go, lines 68-73); the pointer is never
nil in the model. -/
def currentVersionID {K V : Type} (m : MVCCMap K V) : Nat :=
  m.current.id

/-- `MVCCMap.collectVersions` (gc.go, lines 34-66).  Step 1 sets
`minSnapshotID := m.currentVersionID()`; the loop over `m.activeTxs` that
follows reads each meta and discards it (`_ = meta`, txMeta records no
snapshot id), so it has no effect on the computed bound.  Step 2 keeps a
version iff it is current, or its refcount is positive, or its id is at
least `minSnapshotID`. -/
def collectVersions {K V : Type} (m : MVCCMap K V) : MVCCMap K V :=
  let minSnapshotID := currentVersionID m
  let currentID := currentVersionID m
  { m with
    versions := m.versions.filter fun v =>
      decide (v.id = currentID) || decide (0 < v.refCount) ||
        decide (minSnapshotID ≤ v.id) }

/-- Modelled from the spec (§4.7 step 2, quoted by the claim): "Determine
`min_active_snapshot_id` — the smallest `snapshot.id` across the
currently-active transactions. If there are no active transactions, this is
defined as the current version's id."  The source's `txMeta` records no
snapshot id, so the active transactions' snapshot ids are passed
explicitly. -/
def specMinActiveSnapshotID (currentID : Nat) (activeSnapIDs : List Nat) :
    Nat :=
  match activeSnapIDs with
  | [] => currentID
  | i :: rest => rest.foldl min i

/-- Modelled from the spec (§4.7 step 3, quoted by the claim): retain a
version iff it is current, or its refcount is positive, or its id is at
least `min_active_snapshot_id`; reclaim all others. -/
def specCollectVersions {K V : Type} (m : MVCCMap K V)
    (activeSnapIDs : List Nat) : MVCCMap K V :=
  let minID := specMinActiveSnapshotID (currentVersionID m) activeSnapIDs
  { m with
    versions := m.versions.filter fun v =>
      decide (v.id = currentVersionID m) || decide (0 < v.refCount) ||
        decide (minID ≤ v.id) }

/-- Graph construction of `detectDeadlocks` (part_001, lines 34-41): one
edge `id → waitFor` per registered transaction whose `waitFor` is
nonzero. -/
def buildWaitGraph (activeTxs : List (Nat × txMeta)) : List (Nat × Nat) :=
  activeTxs.filterMap fun p =>
    if p.2.waitFor = 0 then none else some (p.1, p.2.waitFor)

/-- The recursive `dfs` closure of `detectDeadlocks` (part_001, lines
48-67).  State threaded explicitly: the `visited` and `inStack` sets as
lists.  A node already on the stack yields the singleton `[id]`; on the way
back each frame appends its own id (`append(cycle, id)`).  The fuel is only
a termination device: every recursive call pushes a previously unvisited
node, so `graph.length + 1` is never exhausted. -/
def dfsGo (graph : List (Nat × Nat)) :
    Nat → List Nat → List Nat → Nat →
      Option (List Nat) × List Nat × List Nat
  | 0, visited, inStack, _ => (none, visited, inStack)
  | fuel + 1, visited, inStack, i =>
    if i ∈ inStack then (some [i], visited, inStack)
    else if i ∈ visited then (none, visited, inStack)
    else
      let visited' := i :: visited
      let inStack' := i :: inStack
      match lookup graph i with
      | some next =>
        match dfsGo graph fuel visited' inStack' next with
        | (some cycle, vis2, st2) => (some (cycle ++ [i]), vis2, st2)
        | (none, vis2, st2) => (none, vis2, st2.erase i)
      | none => (none, visited', inStack'.erase i)

/-- The outer loop of `detectDeadlocks` (part_001, lines 69-76): try a DFS
from every not-yet-visited key, stopping at the first cycle.  `visited`
persists across roots. -/
def detectLoop (graph : List (Nat × Nat)) :
    List Nat → List Nat → Option (List Nat)
  | [], _ => none
  | i :: rest, visited =>
    if i ∈ visited then detectLoop graph rest visited
    else
      match dfsGo graph (graph.length + 1) visited [] i with
      | (some cycle, _, _) => some cycle
      | (none, vis2, _) => detectLoop graph rest vis2

/-- `MVCCMap.detectDeadlocks` (part_001, lines 31-77).  Go map iteration
order is unspecified, so the order in which the keys are tried is an
explicit parameter: any permutation of the keys is an admissible run. -/
def detectDeadlocks (graph : List (Nat × Nat)) (order : List Nat) :
    Option (List Nat) :=
  detectLoop graph order []

/-- `MVCCMap.resolveDeadlock` (part_001, lines 82-106): the victim is the
largest id in the reported cycle slice (`if id > victim` starting from 0);
the victim's meta is looked up, its mutex locked and unlocked, and the
reference discarded (`_ = meta` — txMeta holds no cancellation handle), so
no transaction's context is cancelled.  The second component is the list of
transaction ids whose cancellation was fired, which is empty on both
branches. -/
def resolveDeadlock (activeTxs : List (Nat × txMeta)) (cycle : List Nat) :
    Nat × List Nat :=
  let victim := cycle.foldl (fun acc i => if acc < i then i else acc) 0
  match lookup activeTxs victim with
  | some _ => (victim, [])
  | none => (victim, [])

/-- Fuel-bounded reachability in the wait-for graph (each node has at most
one successor, read off with `lookup`): used to state which transactions
actually lie on a cycle. -/
def reachesWithin (graph : List (Nat × Nat)) :
    Nat → Nat → Nat → Bool
  | 0, _, _ => false
  | fuel + 1, src, tgt =>
    match lookup graph src with
    | none => false
    | some next => next == tgt || reachesWithin graph fuel next tgt

/-- A transaction id lies on a cycle of the wait-for graph iff it can reach
itself along wait-for edges. -/
def onCycle (graph : List (Nat × Nat)) (n : Nat) : Bool :=
  reachesWithin graph (graph.length + 1) n n

/-- A Go map has no duplicate keys; the write buffer, built only by
`minsert`, satisfies this. -/
def nodupKeys {K A : Type} (m : List (K × A)) : Prop :=
  (m.map Prod.fst).Nodup

/-- The ops sequenced in claim C8's termination scenarios. -/
inductive termOp where
  | commitOp
  | rollbackOp
deriving DecidableEq, Repr

/-- Run a sequence of Commit / Rollback calls on one transaction,
accumulating the number of snapshot-refcount decrements executed. -/
def runTermOps {K V : Type} [DecidableEq K] :
    Tx K V → MVCCMap K V → List termOp → Tx K V × MVCCMap K V × Nat
  | tx, m, [] => (tx, m, 0)
  | tx, m, op :: rest =>
    let step : Tx K V × MVCCMap K V × Nat :=
      match op with
      | .commitOp =>
        let r := Commit tx m
        (r.2.1, r.2.2.1, r.2.2.2.snapRefDec)
      | .rollbackOp =>
        let r := Rollback tx m
        (r.1, r.2.1, r.2.2.snapRefDec)
    let r2 := runTermOps step.1 step.2.1 rest
    (r2.1, r2.2.1, step.2.2 + r2.2.2)

theorem lookup_nil {K A : Type} [DecidableEq K] (k : K) :
    lookup ([] : List (K × A)) k = none :=
  rfl

theorem lookup_cons_eq {K A : Type} [DecidableEq K]
    {k k0 : K} (a0 : A) (rest : List (K × A)) (h : k = k0) :
    lookup ((k0, a0) :: rest) k = some a0 := by
  simp [lookup, h]

theorem lookup_cons_ne {K A : Type} [DecidableEq K]
    {k k0 : K} (a0 : A) (rest : List (K × A)) (h : ¬k = k0) :
    lookup ((k0, a0) :: rest) k = lookup rest k := by
  simp [lookup, h]

theorem minsert_cons_eq {K A : Type} [DecidableEq K]
    {k k0 : K} (a a0 : A) (rest : List (K × A)) (h : k = k0) :
    minsert ((k0, a0) :: rest) k a = (k, a) :: rest := by
  simp [minsert, h]

theorem minsert_cons_ne {K A : Type} [DecidableEq K]
    {k k0 : K} (a a0 : A) (rest : List (K × A)) (h : ¬k = k0) :
    minsert ((k0, a0) :: rest) k a = (k0, a0) :: minsert rest k a := by
  simp [minsert, h]

theorem lookup_minsert {K A : Type} [DecidableEq K]
    (m : List (K × A)) (k k' : K) (a : A) :
    lookup (minsert m k a) k' = if k' = k then some a else lookup m k' := by
  induction m with
  | nil =>
    by_cases h : k' = k
    · simp [minsert, lookup, h]
    · simp [minsert, lookup, h]
  | cons p rest ih =>
    obtain ⟨k0, a0⟩ := p
    by_cases h : k = k0
    · rw [minsert_cons_eq a a0 rest h]
      by_cases h1 : k' = k
      · rw [lookup_cons_eq a rest h1, if_pos h1]
      · rw [lookup_cons_ne a rest h1, if_neg h1,
          lookup_cons_ne a0 rest (fun hc => h1 (hc.trans h.symm))]
    · rw [minsert_cons_ne a a0 rest h]
      by_cases h1 : k' = k0
      · have h2 : ¬k' = k := fun hc => h (hc.symm.trans h1)
        rw [lookup_cons_eq a0 _ h1, if_neg h2, lookup_cons_eq a0 rest h1]
      · rw [lookup_cons_ne a0 _ h1, ih, lookup_cons_ne a0 rest h1]

theorem lookup_eq_none_of_not_mem_keys {K A : Type} [DecidableEq K]
    {m : List (K × A)} {k : K} (h : k ∉ m.map Prod.fst) :
    lookup m k = none := by
  induction m with
  | nil => rfl
  | cons p rest ih =>
    simp only [List.map_cons, List.mem_cons] at h
    push_neg at h
    rw [show p = (p.1, p.2) from rfl, lookup_cons_ne p.2 rest h.1]
    exact ih h.2

theorem lookup_mem {K A : Type} [DecidableEq K]
    {m : List (K × A)} {k : K} {a : A} (h : lookup m k = some a) :
    (k, a) ∈ m := by
  induction m with
  | nil => simp [lookup] at h
  | cons p rest ih =>
    obtain ⟨k0, a0⟩ := p
    by_cases hk : k = k0
    · rw [lookup_cons_eq a0 rest hk] at h
      injection h with h2
      rw [hk, h2]
      exact List.mem_cons_self _ _
    · rw [lookup_cons_ne a0 rest hk] at h
      exact List.mem_cons_of_mem _ (ih h)

theorem mem_minsert {K A : Type} [DecidableEq K]
    {m : List (K × A)} {k : K} {a : A} {p : K × A}
    (h : p ∈ minsert m k a) : p = (k, a) ∨ p ∈ m := by
  induction m with
  | nil => simpa [minsert] using h
  | cons q rest ih =>
    obtain ⟨k0, a0⟩ := q
    by_cases hk : k = k0
    · rw [minsert_cons_eq a a0 rest hk, List.mem_cons] at h
      rcases h with h | h
      · exact Or.inl h
      · exact Or.inr (List.mem_cons_of_mem _ h)
    · rw [minsert_cons_ne a a0 rest hk, List.mem_cons] at h
      rcases h with h | h
      · exact Or.inr (h ▸ List.mem_cons_self _ _)
      · rcases ih h with h' | h'
        · exact Or.inl h'
        · exact Or.inr (List.mem_cons_of_mem _ h')

theorem keys_minsert {K A : Type} [DecidableEq K]
    (m : List (K × A)) (k : K) (a : A) {x : K}
    (h : x ∈ (minsert m k a).map Prod.fst) :
    x = k ∨ x ∈ m.map Prod.fst := by
  simp only [List.mem_map] at h
  obtain ⟨p, hp, hx⟩ := h
  rcases mem_minsert hp with h' | h'
  · left
    rw [← hx, h']
  · exact Or.inr (List.mem_map.mpr ⟨p, h', hx⟩)

theorem nodupKeys_minsert {K A : Type} [DecidableEq K]
    {m : List (K × A)} (h : nodupKeys m) (k : K) (a : A) :
    nodupKeys (minsert m k a) := by
  induction m with
  | nil => simp [minsert, nodupKeys]
  | cons p rest ih =>
    obtain ⟨k0, a0⟩ := p
    simp only [nodupKeys, List.map_cons, List.nodup_cons] at h
    by_cases hk : k = k0
    · subst hk
      simpa [minsert, nodupKeys, List.nodup_cons] using h
    · have h' := ih h.2
      simp only [minsert, if_neg hk, nodupKeys, List.map_cons, List.nodup_cons]
      refine ⟨fun hc => ?_, h'⟩
      rcases keys_minsert rest k a hc with h1 | h1
      · exact hk h1.symm
      · exact h.1 h1

theorem nodupKeys_nil {K A : Type} : nodupKeys ([] : List (K × A)) :=
  List.nodup_nil

theorem lookup_overlay {K V : Type} [DecidableEq K]
    (writes : List (K × versionedValue V)) :
    ∀ data : List (K × versionedValue V), nodupKeys writes → ∀ k,
      lookup (overlay data writes) k =
        match lookup writes k with
        | some vv => some vv
        | none => lookup data k := by
  induction writes with
  | nil => intro data _ k; simp [overlay, lookup]
  | cons p rest ih =>
    intro data hnd k
    obtain ⟨k0, v0⟩ := p
    simp only [nodupKeys, List.map_cons, List.nodup_cons] at hnd
    have step : overlay data ((k0, v0) :: rest) =
        overlay (minsert data k0 v0) rest := rfl
    rw [step, ih (minsert data k0 v0) hnd.2 k]
    by_cases hk : k = k0
    · subst hk
      rw [lookup_eq_none_of_not_mem_keys hnd.1]
      simp [lookup, lookup_minsert]
    · simp only [lookup, if_neg hk, lookup_minsert, if_neg hk]

theorem mem_overlay {K V : Type} [DecidableEq K]
    (writes : List (K × versionedValue V)) :
    ∀ data p, p ∈ overlay data writes → p ∈ writes ∨ p ∈ data := by
  induction writes with
  | nil => intro data p h; exact Or.inr h
  | cons q rest ih =>
    intro data p h
    have step : overlay data (q :: rest) =
        overlay (minsert data q.1 q.2) rest := rfl
    rw [step] at h
    rcases ih (minsert data q.1 q.2) p h with h' | h'
    · exact Or.inl (List.mem_cons_of_mem _ h')
    · rcases mem_minsert h' with h2 | h2
      · exact Or.inl (h2 ▸ List.mem_cons_self _ _)
      · exact Or.inr h2

theorem lookup_filter_ne_self {A : Type} (l : List (Nat × A)) (i : Nat) :
    lookup (l.filter fun p => p.1 != i) i = none := by
  induction l with
  | nil => rfl
  | cons p rest ih =>
    obtain ⟨k, a⟩ := p
    rw [List.filter_cons]
    by_cases h : k = i
    · subst h
      simpa using ih
    · have hb : ((k, a).1 != i) = true := by
        simp only [bne_iff_ne, ne_eq]
        exact h
      rw [if_pos hb, lookup_cons_ne a _ (fun hc => h hc.symm)]
      exact ih

theorem commit_activeTxs {K V : Type} [DecidableEq K]
    (m : MVCCMap K V) (tx : Tx K V) :
    (commit m tx).2.activeTxs = m.activeTxs := by
  by_cases h : hasConflict m.current tx.snapshot tx.writes <;> simp [commit, h]

theorem bumpRef_shape {K V : Type} (m : MVCCMap K V) (vid : Nat) (d : Int) :
    (bumpRef m vid d).current.id = m.current.id ∧
    (bumpRef m vid d).current.data = m.current.data ∧
    (bumpRef m vid d).activeTxs = m.activeTxs ∧
    (bumpRef m vid d).versions.map (fun v => (v.id, v.data)) =
      m.versions.map (fun v => (v.id, v.data)) := by
  refine ⟨?_, ?_, rfl, ?_⟩
  · simp only [bumpRef]
    split <;> rfl
  · simp only [bumpRef]
    split <;> rfl
  · simp only [bumpRef]
    induction m.versions with
    | nil => rfl
    | cons v rest ih =>
      simp only [List.map_cons, ih, List.cons.injEq, and_true]
      split <;> rfl

theorem Commit_terminal {K V : Type} [DecidableEq K]
    (tx : Tx K V) (m : MVCCMap K V) (h : tx.state ≠ txActive) :
    Commit tx m = (some .ErrTxDone, tx, m, noEffects) := by
  simp [Commit, h]

theorem Rollback_terminal {K V : Type}
    (tx : Tx K V) (m : MVCCMap K V) (h : tx.state ≠ txActive) :
    Rollback tx m = (tx, m, noEffects) := by
  simp [Rollback, h]

theorem Commit_from_active {K V : Type} [DecidableEq K]
    (tx : Tx K V) (m : MVCCMap K V) (h : tx.state = txActive) :
    (Commit tx m).2.1.state ≠ txActive ∧
    (Commit tx m).2.2.2.snapRefDec = 1 := by
  cases hc : tx.ctxErr <;> simp [Commit, h, hc, finishTx]

theorem Rollback_from_active {K V : Type}
    (tx : Tx K V) (m : MVCCMap K V) (h : tx.state = txActive) :
    (Rollback tx m).1.state ≠ txActive ∧
    (Rollback tx m).2.2.snapRefDec = 1 := by
  simp [Rollback, h, finishTx]

theorem runTermOps_terminal {K V : Type} [DecidableEq K]
    (tx : Tx K V) (m : MVCCMap K V) (ops : List termOp)
    (h : tx.state ≠ txActive) :
    runTermOps tx m ops = (tx, m, 0) := by
  induction ops with
  | nil => rfl
  | cons op rest ih =>
    cases op with
    | commitOp => simp [runTermOps, Commit_terminal tx m h, noEffects, ih]
    | rollbackOp => simp [runTermOps, Rollback_terminal tx m h, noEffects, ih]

/-- C1 counterexample: a state on which the claim's conflict predicate and
the source's disagree.  The current version (id 1) holds key 0 written by
transaction 5 while the snapshot (also id 1) has no entry for key 0: the
claim's predicate ("cur_entry exists and its writer differs from
snap_entry's, including when snap_entry does not exist") signals a
conflict, but the source's predicate does not, because of its additional
guard `current.id > tx.snapshot.id` (map.go line 133). -/
theorem C1_counterexample :
    conflictAt (⟨1, [(0, ⟨0, 5⟩)], 0⟩ : version Nat Nat) ⟨1, [], 0⟩ 0 = false ∧
    specConflictAt (⟨1, [(0, ⟨0, 5⟩)], 0⟩ : version Nat Nat) ⟨1, [], 0⟩ 0 = true :=
  ⟨rfl, rfl⟩

/-- C1 (amended): in the commit critical section a conflict is signalled on
key k iff the current entry exists, its writer_tx_id is nonzero, the
current version's id is strictly greater than the snapshot's id, and the
snapshot entry is missing or carries a different writer_tx_id; a missing
current entry is never a conflict.  Moreover the two extra guards are
redundant on states satisfying the store's invariants (published writers
are ≥ 1, snapshot ids never exceed the current id, and equal ids mean the
same version), where the source's predicate coincides with the spec's. -/
theorem C1_conflict_predicate {K V : Type} [DecidableEq K]
    (current snapshot : version K V) (k : K) :
    ((conflictAt current snapshot k = true ↔
        ∃ vv, lookup current.data k = some vv ∧ vv.writerTxID ≠ 0 ∧
          snapshot.id < current.id ∧
          ∀ svv, lookup snapshot.data k = some svv →
            svv.writerTxID ≠ vv.writerTxID) ∧
      (lookup current.data k = none → conflictAt current snapshot k = false)) ∧
    ((∀ p ∈ current.data, 1 ≤ p.2.writerTxID) →
      snapshot.id ≤ current.id →
      (snapshot.id = current.id → snapshot.data = current.data) →
      conflictAt current snapshot k = specConflictAt current snapshot k) := by
  refine ⟨⟨?_, ?_⟩, ?_⟩
  · cases h : lookup current.data k with
    | none => simp [conflictAt, h]
    | some vv =>
      cases h2 : lookup snapshot.data k with
      | none =>
        simp only [conflictAt, h, h2, Bool.and_true, Bool.and_eq_true,
          decide_eq_true_eq, Option.some.injEq]
        constructor
        · rintro ⟨h1, h3⟩
          exact ⟨vv, rfl, h1, h3, fun svv hs => by simp [h2] at hs⟩
        · rintro ⟨vv', hvv, h1, h3, _⟩
          subst hvv
          exact ⟨h1, h3⟩
      | some snapVV =>
        simp only [conflictAt, h, h2, Bool.and_eq_true, decide_eq_true_eq,
          Option.some.injEq]
        constructor
        · rintro ⟨⟨h1, h3⟩, h4⟩
          exact ⟨vv, rfl, h1, h3, fun svv hs => hs ▸ h4⟩
        · rintro ⟨vv', hvv, h1, h3, h4⟩
          subst hvv
          exact ⟨⟨h1, h3⟩, h4 snapVV rfl⟩
  · intro h
    simp [conflictAt, h]
  · intro hw hle hsame
    cases h : lookup current.data k with
    | none => simp [conflictAt, specConflictAt, h]
    | some vv =>
      have h1 : 1 ≤ vv.writerTxID := hw (k, vv) (lookup_mem h)
      have hne : vv.writerTxID ≠ 0 := by omega
      rcases lt_or_eq_of_le hle with hlt | heq
      · cases h2 : lookup snapshot.data k with
        | none => simp [conflictAt, specConflictAt, h, h2, hne, hlt]
        | some snapVV => simp [conflictAt, specConflictAt, h, h2, hne, hlt]
      · have hdata : snapshot.data = current.data := hsame heq
        have h2 : lookup snapshot.data k = some vv := by rw [hdata]; exact h
        have hg : ¬snapshot.id < current.id := by omega
        simp [conflictAt, specConflictAt, h, h2, hg]

/-- C1 witness: the amended equivalence applied at a concrete reachable
state (current id 2 with key 0 written by tx 3, snapshot id 1 holding the
key from tx 2): both predicates signal the conflict. -/
theorem C1_witness :
    conflictAt (⟨2, [(0, ⟨7, 3⟩)], 0⟩ : version Nat Nat)
        ⟨1, [(0, ⟨6, 2⟩)], 0⟩ 0 =
      specConflictAt (⟨2, [(0, ⟨7, 3⟩)], 0⟩ : version Nat Nat)
        ⟨1, [(0, ⟨6, 2⟩)], 0⟩ 0 :=
  (C1_conflict_predicate (⟨2, [(0, ⟨7, 3⟩)], 0⟩ : version Nat Nat)
      ⟨1, [(0, ⟨6, 2⟩)], 0⟩ 0).2
    (by decide) (by decide) (fun h => absurd h (by decide))

/-- C2 counterexample: current version id 2; versions 0 (refcount 1, held
by the one active transaction whose snapshot id is 0), 1 (refcount 0) and
2 (current).  The claim's `min_active_snapshot_id` is 0, so version 1
(id 1 ≥ 0) must be retained; the source computes `minSnapshotID` as the
current version's id (2) — its loop over activeTxs reads nothing — and
reclaims version 1. -/
theorem C2_counterexample :
    ((collectVersions (⟨⟨2, [], 0⟩, 7, 2, [(7, ⟨7, 0⟩)],
          [⟨0, [], 1⟩, ⟨1, [], 0⟩, ⟨2, [], 0⟩]⟩ : MVCCMap Nat Nat)).versions.map
        (fun v => v.id) = [0, 2]) ∧
    ((specCollectVersions (⟨⟨2, [], 0⟩, 7, 2, [(7, ⟨7, 0⟩)],
          [⟨0, [], 1⟩, ⟨1, [], 0⟩, ⟨2, [], 0⟩]⟩ : MVCCMap Nat Nat) [0]).versions.map
        (fun v => v.id) = [0, 1, 2]) :=
  ⟨rfl, rfl⟩

/-- C2 (amended): on every reclaimer tick the source sets
`min_active_snapshot_id` to the current version's id regardless of the
active transactions (its loop over them has no effect, txMeta recording no
snapshot id), so a version is retained iff its refcount is positive or its
id is at least the current version's id; all others are reclaimed. -/
theorem C2_gc_retention {K V : Type} (m : MVCCMap K V) (v : version K V) :
    v ∈ (collectVersions m).versions ↔
      v ∈ m.versions ∧ (0 < v.refCount ∨ m.current.id ≤ v.id) := by
  simp only [collectVersions, currentVersionID, List.mem_filter,
    Bool.or_eq_true, decide_eq_true_eq]
  constructor
  · rintro ⟨hm, h⟩
    exact ⟨hm, by omega⟩
  · rintro ⟨hm, h⟩
    exact ⟨hm, by omega⟩

/-- C2 witness: the retention characterization applied at a version with
id above the current id. -/
theorem C2_witness :
    (⟨5, [], 0⟩ : version Nat Nat) ∈
      (collectVersions (⟨⟨3, [], 0⟩, 0, 0, [],
        [⟨5, [], 0⟩]⟩ : MVCCMap Nat Nat)).versions :=
  (C2_gc_retention _ _).mpr ⟨by decide, Or.inr (by decide)⟩

/-- C3: two transactions wait on each other (wait-for graph 1 → 2 → 1);
the detector finds the cycle and `resolveDeadlock` selects victim 2, but it
fires no cancellation (its second component, the list of transaction ids
whose cancellation was fired, is empty — txMeta holds no cancel handle and
the source's lookup body only locks and unlocks a mutex).  Consequently the
victim's context is still live and its next Put, Get and Commit all succeed
without `ErrTxCanceled`, contradicting the claim. -/
theorem C3_no_cancellation_fired :
    buildWaitGraph [(1, ⟨1, 2⟩), (2, ⟨2, 1⟩)] = [(1, 2), (2, 1)] ∧
    detectDeadlocks [(1, 2), (2, 1)] [1, 2] = some [1, 2, 1] ∧
    resolveDeadlock [(1, ⟨1, 2⟩), (2, ⟨2, 1⟩)] [1, 2, 1] = (2, []) ∧
    (Put (⟨2, ⟨0, [], 1⟩, [], [], txActive, none⟩ : Tx Nat Nat)
        (NewMVCCMap Nat Nat) 0 42).1 = none ∧
    (Get (⟨2, ⟨0, [], 1⟩, [], [], txActive, none⟩ : Tx Nat Nat) 0).1 = none ∧
    (Commit (⟨2, ⟨0, [], 1⟩, [], [], txActive, none⟩ : Tx Nat Nat)
        (NewMVCCMap Nat Nat)).1 = none :=
  ⟨rfl, rfl, rfl, rfl, rfl, rfl⟩

/-- C4: on the wait-for graph 3 → 1 → 2 → 1 with the DFS iteration starting
at key 3 (an admissible Go map order), the back-edge into the stack hits
node 1 but the returned slice is [1, 2, 1, 3]: the unwinding appends every
frame down to the DFS root, so the slice contains the path prefix 3 and a
duplicate of the re-entered node — not the stack suffix [1, 2].  The victim
(largest id in the slice) is 3, which lies on no cycle of the graph; the
cycle's members are exactly 1 and 2. -/
theorem C4_victim_not_in_cycle :
    detectDeadlocks [(3, 1), (1, 2), (2, 1)] [3, 1, 2] = some [1, 2, 1, 3] ∧
    resolveDeadlock [(3, ⟨3, 1⟩), (1, ⟨1, 2⟩), (2, ⟨2, 1⟩)]
        [1, 2, 1, 3] = (3, []) ∧
    onCycle [(3, 1), (1, 2), (2, 1)] 3 = false ∧
    onCycle [(3, 1), (1, 2), (2, 1)] 1 = true ∧
    onCycle [(3, 1), (1, 2), (2, 1)] 2 = true :=
  ⟨rfl, rfl, rfl, rfl, rfl⟩

/-- C5: `Get` returns absent (and no error — the source's signature has no
error channel) whenever the state is not Active; when Active it returns the
write-buffer entry if present, else the snapshot entry, else absent; and
any returned value is drawn from the transaction's own write buffer or its
begin-time snapshot, never from a later commit. -/
theorem C5_get_semantics {K V : Type} [DecidableEq K] (tx : Tx K V) (k : K) :
    (tx.state ≠ txActive → (Get tx k).1 = none) ∧
    (tx.state = txActive →
      (Get tx k).1 =
        match lookup tx.writes k with
        | some vv => some vv.value
        | none =>
          match lookup tx.snapshot.data k with
          | some vv => some vv.value
          | none => none) ∧
    (∀ v, (Get tx k).1 = some v →
      (∃ vv, lookup tx.writes k = some vv ∧ vv.value = v) ∨
      (lookup tx.writes k = none ∧
        ∃ vv, lookup tx.snapshot.data k = some vv ∧ vv.value = v)) := by
  refine ⟨fun h => by simp [Get, checkActive, h], fun h => ?_, fun v hv => ?_⟩
  · cases h1 : lookup tx.writes k with
    | some vv => simp [Get, checkActive, h, h1]
    | none =>
      cases h2 : lookup tx.snapshot.data k with
      | some vv => simp [Get, checkActive, h, h1, h2]
      | none => simp [Get, checkActive, h, h1, h2]
  · by_cases h : tx.state = txActive
    · have hca : checkActive tx = none := by simp [checkActive, h]
      cases h1 : lookup tx.writes k with
      | some vv =>
        simp only [Get, hca, h1] at hv
        injection hv with hv
        exact Or.inl ⟨vv, rfl, hv⟩
      | none =>
        cases h2 : lookup tx.snapshot.data k with
        | some vv =>
          simp only [Get, hca, h1, h2] at hv
          injection hv with hv
          exact Or.inr ⟨rfl, vv, rfl, hv⟩
        | none => simp [Get, hca, h1, h2] at hv
    · simp [Get, checkActive, h] at hv

/-- C5 witness: a transaction holding key 5 in both its write buffer (value
7) and its snapshot (value 9) reads its own write. -/
theorem C5_witness :
    (Get (⟨1, ⟨0, [(5, ⟨9, 1⟩)], 1⟩, [(5, ⟨7, 1⟩)], [], txActive,
        none⟩ : Tx Nat Nat) 5).1 = some 7 := by
  rw [(C5_get_semantics (⟨1, ⟨0, [(5, ⟨9, 1⟩)], 1⟩, [(5, ⟨7, 1⟩)], [],
    txActive, none⟩ : Tx Nat Nat) 5).2.1 rfl]
  rfl

/-- C6: `Commit` CASes Active → Committed first and returns `ErrTxDone`
(with no other effect) when the swap fails; on a successful swap its
deferred cleanup fires the cancel, unregisters the transaction from the
store and decrements the snapshot refcount exactly once on every exit
path; and when the context was cancelled before the critical section the
state is reverted to RolledBack and `ErrTxCanceled` wrapping the context's
cause is returned. -/
theorem C6_commit_entry_protocol {K V : Type} [DecidableEq K]
    (tx : Tx K V) (m : MVCCMap K V) :
    (tx.state ≠ txActive → Commit tx m = (some .ErrTxDone, tx, m, noEffects)) ∧
    (tx.state = txActive →
      (Commit tx m).2.2.2 = ⟨true, true, 1⟩ ∧
      (Commit tx m).2.1.ctxErr.isSome = true ∧
      lookup (Commit tx m).2.2.1.activeTxs tx.id = none) ∧
    (∀ cause, tx.state = txActive → tx.ctxErr = some cause →
      (Commit tx m).1 = some (.ErrTxCanceled cause) ∧
      (Commit tx m).2.1.state = txRolledBack) := by
  refine ⟨fun h => Commit_terminal tx m h, fun h => ?_, fun cause h hc => ?_⟩
  · have hOK : ¬tx.state ≠ txActive := fun hcon => hcon h
    cases hc : tx.ctxErr with
    | some cause =>
      refine ⟨by simp [Commit, h, hc], by simp [Commit, h, hc, finishTx], ?_⟩
      simp only [Commit, if_neg hOK, hc, finishTx, bumpRef, unregisterTx]
      exact lookup_filter_ne_self _ _
    | none =>
      refine ⟨by simp [Commit, h, hc], by simp [Commit, h, hc, finishTx], ?_⟩
      simp only [Commit, if_neg hOK, hc, finishTx, bumpRef, unregisterTx]
      exact lookup_filter_ne_self _ _
  · exact ⟨by simp [Commit, h, hc], by simp [Commit, h, hc, finishTx]⟩

/-- C6 witness: the protocol applied to an active transaction whose context
was cancelled with cause "deadline" before Commit. -/
theorem C6_witness :
    (Commit (⟨1, ⟨0, [], 1⟩, [], [], txActive, some "deadline"⟩ : Tx Nat Nat)
        (NewMVCCMap Nat Nat)).1 = some (.ErrTxCanceled "deadline") ∧
    (Commit (⟨1, ⟨0, [], 1⟩, [], [], txActive, some "deadline"⟩ : Tx Nat Nat)
        (NewMVCCMap Nat Nat)).2.1.state = txRolledBack ∧
    (Commit (⟨1, ⟨0, [], 1⟩, [], [], txActive, some "deadline"⟩ : Tx Nat Nat)
        (NewMVCCMap Nat Nat)).2.2.2 = ⟨true, true, 1⟩ :=
  ⟨((C6_commit_entry_protocol (⟨1, ⟨0, [], 1⟩, [], [], txActive,
      some "deadline"⟩ : Tx Nat Nat) (NewMVCCMap Nat Nat)).2.2 "deadline"
      rfl rfl).1,
   ((C6_commit_entry_protocol (⟨1, ⟨0, [], 1⟩, [], [], txActive,
      some "deadline"⟩ : Tx Nat Nat) (NewMVCCMap Nat Nat)).2.2 "deadline"
      rfl rfl).2,
   ((C6_commit_entry_protocol (⟨1, ⟨0, [], 1⟩, [], [], txActive,
      some "deadline"⟩ : Tx Nat Nat) (NewMVCCMap Nat Nat)).2.1 rfl).1⟩

/-- C7: the commit critical section returns `ErrConflict` without
publishing — the store passed back on the conflict path is exactly the
input store, so `current` and `versions` are unchanged — and `ErrConflict`
is the only error `commit` produces; `Put` never produces it, and when
`Tx.Commit` surfaces it the conflict predicate really fired and the store's
current pointer and versions list (ids and data; the deferred refcount
release touches only refcounts) are unchanged. -/
theorem C7_conflict_is_sterile {K V : Type} [DecidableEq K]
    (m : MVCCMap K V) (tx : Tx K V) :
    (hasConflict m.current tx.snapshot tx.writes = true →
      commit m tx = (some .ErrConflict, m)) ∧
    (∀ e m', commit m tx = (some e, m') → e = .ErrConflict ∧ m' = m) ∧
    (∀ key value, (Put tx m key value).1 ≠ some .ErrConflict) ∧
    (∀ tx' m' eff, Commit tx m = (some .ErrConflict, tx', m', eff) →
      hasConflict m.current tx.snapshot tx.writes = true ∧
      m'.current.id = m.current.id ∧ m'.current.data = m.current.data ∧
      m'.versions.map (fun v => (v.id, v.data)) =
        m.versions.map (fun v => (v.id, v.data))) := by
  refine ⟨fun h => by simp [commit, h], fun e m' h => ?_,
    fun key value => ?_, fun tx' m' eff h => ?_⟩
  · by_cases hc : hasConflict m.current tx.snapshot tx.writes
    · simp only [commit, if_pos hc, Prod.mk.injEq, Option.some.injEq] at h
      exact ⟨h.1.symm, h.2.symm⟩
    · simp [commit, hc] at h
  · cases hca : checkActive tx with
    | some e =>
      have he : e = .ErrTxDone := by
        simp only [checkActive] at hca
        by_cases hs : tx.state ≠ txActive
        · rw [if_pos hs] at hca
          injection hca with hca
          exact hca.symm
        · rw [if_neg hs] at hca
          cases hca
      simp [Put, hca, he]
    | none =>
      cases hctx : tx.ctxErr with
      | some cause => simp [Put, hca, hctx]
      | none => simp [Put, hca, hctx]
  · by_cases hs : tx.state = txActive
    · have hOK : ¬tx.state ≠ txActive := fun hcon => hcon hs
      cases hctx : tx.ctxErr with
      | some cause => simp [Commit, if_neg hOK, hctx] at h
      | none =>
        by_cases hc : hasConflict m.current tx.snapshot tx.writes
        · refine ⟨hc, ?_⟩
          have hm' : m' = bumpRef (unregisterTx m tx.id) tx.snapshot.id (-1) := by
            simp only [Commit, if_neg hOK, hctx, finishTx, commit, if_pos hc,
              Prod.mk.injEq] at h
            exact h.2.2.1.symm
          rw [hm']
          have hb := bumpRef_shape (unregisterTx m tx.id) tx.snapshot.id (-1)
          have hu1 : (unregisterTx m tx.id).current = m.current := rfl
          have hu2 : (unregisterTx m tx.id).versions = m.versions := rfl
          rw [hb.1, hb.2.1, hu1, hu2] at *
          exact ⟨rfl, rfl, hb.2.2.2⟩
        · simp only [Commit, if_neg hOK, hctx, finishTx, commit, if_neg hc,
            Prod.mk.injEq] at h
          cases h.1
    · rw [Commit_terminal tx m hs] at h
      simp only [Prod.mk.injEq, Option.some.injEq] at h
      cases h.1

/-- C7 witness: two transactions on the empty snapshot write the same key;
after the first commit publishes, the second's commit conflicts and leaves
the store exactly as it was. -/
theorem C7_witness :
    commit
        (commit (NewMVCCMap Nat Nat)
          (⟨1, ⟨0, [], 1⟩, [(5, ⟨41, 1⟩)], [], txActive, none⟩ : Tx Nat Nat)).2
        (⟨2, ⟨0, [], 1⟩, [(5, ⟨42, 2⟩)], [], txActive, none⟩ : Tx Nat Nat) =
      (some .ErrConflict,
        (commit (NewMVCCMap Nat Nat)
          (⟨1, ⟨0, [], 1⟩, [(5, ⟨41, 1⟩)], [], txActive, none⟩ : Tx Nat Nat)).2) :=
  (C7_conflict_is_sterile
    (commit (NewMVCCMap Nat Nat)
      (⟨1, ⟨0, [], 1⟩, [(5, ⟨41, 1⟩)], [], txActive, none⟩ : Tx Nat Nat)).2
    (⟨2, ⟨0, [], 1⟩, [(5, ⟨42, 2⟩)], [], txActive, none⟩ : Tx Nat Nat)).1
    (by decide)

/-- C8: starting from an Active transaction, any nonempty sequence of
Commit / Rollback calls performs exactly one snapshot-refcount decrement,
leaves the transaction in a terminal (non-Active) state, and every call on
an already-terminal transaction is a no-op (Rollback) or returns
`ErrTxDone` (Commit) with no effects. -/
theorem C8_idempotent_termination {K V : Type} [DecidableEq K]
    (tx : Tx K V) (m : MVCCMap K V) (ops : List termOp)
    (hA : tx.state = txActive) (hne : ops ≠ []) :
    (runTermOps tx m ops).2.2 = 1 ∧
    (runTermOps tx m ops).1.state ≠ txActive ∧
    (∀ (tx' : Tx K V) (m' : MVCCMap K V), tx'.state ≠ txActive →
      Commit tx' m' = (some .ErrTxDone, tx', m', noEffects) ∧
      Rollback tx' m' = (tx', m', noEffects)) := by
  cases ops with
  | nil => exact absurd rfl hne
  | cons op rest =>
    have hrun : (runTermOps tx m (op :: rest)).2.2 = 1 ∧
        (runTermOps tx m (op :: rest)).1.state ≠ txActive := by
      cases op with
      | commitOp =>
        have h1 := Commit_from_active tx m hA
        simp only [runTermOps]
        rw [runTermOps_terminal _ _ rest h1.1]
        exact ⟨by simp [h1.2], h1.1⟩
      | rollbackOp =>
        have h1 := Rollback_from_active tx m hA
        simp only [runTermOps]
        rw [runTermOps_terminal _ _ rest h1.1]
        exact ⟨by simp [h1.2], h1.1⟩
    exact ⟨hrun.1, hrun.2,
      fun tx' m' h => ⟨Commit_terminal tx' m' h, Rollback_terminal tx' m' h⟩⟩

/-- C8 witness: rollback, rollback again, then commit: one decrement in
total and a terminal state. -/
theorem C8_witness :
    (runTermOps (⟨1, ⟨0, [], 1⟩, [], [], txActive, none⟩ : Tx Nat Nat)
        (NewMVCCMap Nat Nat)
        [.rollbackOp, .rollbackOp, .commitOp]).2.2 = 1 ∧
    (runTermOps (⟨1, ⟨0, [], 1⟩, [], [], txActive, none⟩ : Tx Nat Nat)
        (NewMVCCMap Nat Nat)
        [.rollbackOp, .rollbackOp, .commitOp]).1.state ≠ txActive :=
  ⟨(C8_idempotent_termination (⟨1, ⟨0, [], 1⟩, [], [], txActive,
      none⟩ : Tx Nat Nat) (NewMVCCMap Nat Nat)
      [.rollbackOp, .rollbackOp, .commitOp] rfl (by decide)).1,
   (C8_idempotent_termination (⟨1, ⟨0, [], 1⟩, [], [], txActive,
      none⟩ : Tx Nat Nat) (NewMVCCMap Nat Nat)
      [.rollbackOp, .rollbackOp, .commitOp] rfl (by decide)).2.1⟩

/-- C9: a successful `commit` publishes a version whose id is the next
version id and whose map is the clone of the previous current map overlaid
with the write set: every key of the write buffer maps to its buffered
entry (stamped with the committing transaction's id, as `Put` stamps it),
and every other key maps to exactly the previous current version's entry.
The hypotheses — distinct buffer keys and entries stamped with the
transaction's id — are the invariants `BeginTx` establishes (empty buffer)
and `Put` maintains. -/
theorem C9_commit_publishes_overlay {K V : Type} [DecidableEq K]
    (m m' : MVCCMap K V) (tx : Tx K V)
    (hnd : nodupKeys tx.writes)
    (hst : ∀ p ∈ tx.writes, p.2.writerTxID = tx.id)
    (h : commit m tx = (none, m')) :
    m'.current.id = m.nextVersionID + 1 ∧
    m'.versions = m.versions ++ [m'.current] ∧
    (∀ k vv, lookup tx.writes k = some vv →
      lookup m'.current.data k = some vv ∧ vv.writerTxID = tx.id) ∧
    (∀ k, lookup tx.writes k = none →
      lookup m'.current.data k = lookup m.current.data k) := by
  by_cases hc : hasConflict m.current tx.snapshot tx.writes
  · simp [commit, hc] at h
  · simp only [commit, if_neg hc, Prod.mk.injEq, true_and] at h
    subst h
    refine ⟨rfl, rfl, fun k vv hk => ?_, fun k hk => ?_⟩
    · have ho := lookup_overlay tx.writes m.current.clone hnd k
      rw [hk] at ho
      exact ⟨ho, hst (k, vv) (lookup_mem hk)⟩
    · have ho := lookup_overlay tx.writes m.current.clone hnd k
      rw [hk] at ho
      exact ho

/-- C9 witness: committing a one-key write set onto the fresh store makes
the published entry visible with the committing id. -/
theorem C9_witness :
    lookup (commit (NewMVCCMap Nat Nat)
        (⟨1, ⟨0, [], 1⟩, [(5, ⟨42, 1⟩)], [], txActive,
          none⟩ : Tx Nat Nat)).2.current.data 5 = some ⟨42, 1⟩ ∧
    lookup (commit (NewMVCCMap Nat Nat)
        (⟨1, ⟨0, [], 1⟩, [(5, ⟨42, 1⟩)], [], txActive,
          none⟩ : Tx Nat Nat)).2.current.data 6 = none :=
  ⟨((C9_commit_publishes_overlay (NewMVCCMap Nat Nat) _
      (⟨1, ⟨0, [], 1⟩, [(5, ⟨42, 1⟩)], [], txActive, none⟩ : Tx Nat Nat)
      (by unfold nodupKeys; decide) (by decide) rfl).2.2.1 5 ⟨42, 1⟩ rfl).1,
   ((C9_commit_publishes_overlay (NewMVCCMap Nat Nat) _
      (⟨1, ⟨0, [], 1⟩, [(5, ⟨42, 1⟩)], [], txActive, none⟩ : Tx Nat Nat)
      (by unfold nodupKeys; decide) (by decide) rfl).2.2.2 6 rfl)⟩

/-- Every entry of every published map (the current version and everything
in `versions`) carries a writer id of at least 1. -/
def publishedOK {K V : Type} (m : MVCCMap K V) : Prop :=
  (∀ p ∈ m.current.data, 1 ≤ p.2.writerTxID) ∧
  (∀ v ∈ m.versions, ∀ p ∈ v.data, 1 ≤ p.2.writerTxID)

/-- C10: a fresh store holds exactly one version, with id 0 and an empty
map, so its version count is 1 and a transaction freshly begun on it reads
absent at every key; `BeginTx` assigns ids starting at 1 (and ≥ 1 on every
store); the fresh store's published entries (vacuously) all carry writer
ids ≥ 1, and `commit` preserves that property for every transaction whose
buffered entries are stamped with its id ≥ 1 — so every entry ever stored
in a published version has writer_tx_id ≥ 1. -/
theorem C10_fresh_store (K V : Type) [DecidableEq K] :
    (VersionCount (NewMVCCMap K V) = 1 ∧
      (NewMVCCMap K V).current.id = 0 ∧
      (NewMVCCMap K V).current.data = [] ∧
      (NewMVCCMap K V).versions = [newVersion 0 []]) ∧
    (∀ (ctxErr : Option String) (k : K),
      (BeginTx (NewMVCCMap K V) ctxErr).1.id = 1 ∧
      (Get (BeginTx (NewMVCCMap K V) ctxErr).1 k).1 = none) ∧
    (∀ (m : MVCCMap K V) (ctxErr : Option String),
      1 ≤ (BeginTx m ctxErr).1.id) ∧
    publishedOK (NewMVCCMap K V) ∧
    (∀ (m m' : MVCCMap K V) (tx : Tx K V), publishedOK m → 1 ≤ tx.id →
      (∀ p ∈ tx.writes, p.2.writerTxID = tx.id) →
      commit m tx = (none, m') → publishedOK m') := by
  refine ⟨⟨rfl, rfl, rfl, rfl⟩, fun ctxErr k => ⟨rfl, rfl⟩,
    fun m ctxErr => Nat.succ_le_succ (Nat.zero_le _),
    ⟨fun p hp => absurd hp (List.not_mem_nil p), ?_⟩,
    fun m m' tx hok hid hst h => ?_⟩
  · intro v hv p hp
    rcases List.mem_singleton.mp hv with rfl
    exact absurd hp (List.not_mem_nil p)
  · by_cases hc : hasConflict m.current tx.snapshot tx.writes
    · simp [commit, hc] at h
    · simp only [commit, if_neg hc, Prod.mk.injEq, true_and] at h
      subst h
      have hnew : ∀ p ∈ overlay m.current.clone tx.writes,
          1 ≤ p.2.writerTxID := by
        intro p hp
        rcases mem_overlay tx.writes m.current.clone p hp with hw | hd
        · rw [hst p hw]
          exact hid
        · exact hok.1 p hd
      refine ⟨hnew, fun v hv => ?_⟩
      rcases List.mem_append.mp hv with hv | hv
      · exact hok.2 v hv
      · rcases List.mem_singleton.mp hv with rfl
        exact hnew

/-- C10 witness: the preservation clause applied to a first commit on the
fresh store: the published store still satisfies `publishedOK`. -/
theorem C10_witness :
    publishedOK (commit (NewMVCCMap Nat Nat)
      (⟨1, ⟨0, [], 1⟩, [(5, ⟨42, 1⟩)], [], txActive,
        none⟩ : Tx Nat Nat)).2 :=
  (C10_fresh_store Nat Nat).2.2.2.2 (NewMVCCMap Nat Nat) _
    (⟨1, ⟨0, [], 1⟩, [(5, ⟨42, 1⟩)], [], txActive, none⟩ : Tx Nat Nat)
    ⟨by decide, by decide⟩ (by decide) (by decide) rfl

end Mvcc
